import Mathlib

/-
  Verification development for the Yothalot-PHP client-side job
  coordination subsystem.

  The definitions below are a shallow embedding of the C++ sources:
    - src/json/object.cpp, src/json/base.cpp  (JSON object model)
    - src/data.h        (the Data class: the job descriptor JSON)
    - src/jobimpl.h     (the JobImpl state machine)
    - src/serialized.h  (the serialization envelope)
    - src/descriptors.h (the descriptor set)
    - src/pool.h        (the Pool aggregator)

  External side effects (broker publishes, queue creation, file flushes,
  directory removal) are made explicit: operations return an event list,
  and external outcomes (can a temp queue be created, does a publish
  succeed, what message arrives) are supplied through an environment
  record.
-/

namespace Yoth

/-! ## JSON model (src/json/object.cpp, src/json/base.cpp)

A JSON object is modelled as an association list of members; json-c's
`json_object_object_add` keeps keys unique, and lookups return the first
(and only) binding of a key. -/

inductive JValue where
  | jnull : JValue
  | jbool : Bool → JValue
  | jint : Int → JValue
  | jstr : String → JValue
  | jarr : List JValue → JValue
  | jobj : List (String × JValue) → JValue

/-- A JSON object: association list of members (keys are unique). -/
abbrev JObj := List (String × JValue)

/-- Member lookup, as json_object_object_get_ex. -/
def JObj.find (ms : JObj) (k : String) : Option JValue :=
  (ms.find? (fun p => p.1 = k)).map Prod.snd

/-- JSON::Object::contains. -/
def JObj.containsKey (ms : JObj) (k : String) : Bool :=
  (JObj.find ms k).isSome

/-- JSON::Object::size — the number of members. -/
def JObj.size (ms : JObj) : Nat := ms.length

/-- JSON::Base::toInt: ints convert to themselves, booleans to 0/1,
strings through atoi (approximated by decimal parsing, 0 on failure),
everything else to 0.  (Doubles are not modelled; none of the verified
code paths stores a double.) -/
def JValue.toInt : JValue → Int
  | .jint n => n
  | .jbool b => if b then 1 else 0
  | .jstr s => (s.toInt?).getD 0
  | _ => 0

/-- JSON::Object::integer — 0 when the member is missing. -/
def JObj.getInt (ms : JObj) (k : String) : Int :=
  match JObj.find ms k with
  | some v => v.toInt
  | none => 0

/-- JSON::Object::c_str — the empty string when the member is missing or
is not a string. -/
def JObj.getStr (ms : JObj) (k : String) : String :=
  match JObj.find ms k with
  | some (.jstr s) => s
  | _ => ""

/-- JSON::Object::isArray for a member. -/
def JObj.isArrayMember (ms : JObj) (k : String) : Bool :=
  match JObj.find ms k with
  | some (.jarr _) => true
  | _ => false

/-- JSON::Object::object — the empty object when the member is missing or
is not an object (member lookups on a non-object value all fail). -/
def JObj.objMember (ms : JObj) (k : String) : JObj :=
  match JObj.find ms k with
  | some (.jobj o) => o
  | _ => []

/-! ## Algorithm kind (src/algorithm.h) -/

inductive Algorithm where
  | mapreduce : Algorithm
  | race : Algorithm
  | job : Algorithm
deriving DecidableEq

/-! ## The job descriptor (src/data.h)

The Data class wraps the JSON job document.  The embedding keeps the
members that the verified operations read or write: the resource caps,
the per-phase limit objects, the input array and the reply address.
The constant members (executable name, arguments, stdin payload, cache
settings) are set once at construction and never touched by the
operations under verification, so they are not repeated here.

One json-c subtlety is preserved: `Object::object(name)` returns a
wrapper that shares the underlying value when the member exists, but a
fresh disconnected object when it does not.  A setter chain such as
`object("mapper").object("limit").set(...)` therefore mutates the
descriptor only when the "mapper" member is present; otherwise it writes
into a temporary and the descriptor is unchanged. -/

/-- The "limit" sub-object of a mapper/reducer/finalizer executable. -/
structure Limit where
  processes : Option Int := none
  files : Option Int := none
  bytes : Option Int := none
  records : Option Int := none
deriving DecidableEq

/-- A mapper/reducer/finalizer member of the descriptor (the Executable
utility class of src/data.h); only its "limit" sub-object is mutable. -/
structure ExecObj where
  limit : Limit := {}
deriving DecidableEq

/-- One element of the descriptor's "input" array. -/
inductive InputEntry where
  | dataEntry : String → InputEntry
  | kvEntry : String → String → Option String → InputEntry
  | fileEntry : (filename : String) → (start : Int) → (size : Int) →
      (remove : Bool) → (server : Option String) → InputEntry
  | dirEntry : (dirname : String) → (remove : Bool) →
      (server : Option String) → InputEntry
deriving DecidableEq

/-- The job descriptor JSON (the Data class). -/
structure Data where
  kind : Algorithm
  processes : Option Int := none
  modulo : Option Int := none
  localFlag : Option Bool := none
  mapper : Option ExecObj := none
  reducer : Option ExecObj := none
  finalizer : Option ExecObj := none
  input : List InputEntry := []
  exchange : Option String := none
  routingkey : Option String := none
deriving DecidableEq

namespace Data

/-- Data::isTask. -/
def isTask (d : Data) : Bool := d.kind = Algorithm.job

/-- Data::isMapReduce. -/
def isMapReduce (d : Data) : Bool := d.kind = Algorithm.mapreduce

/-- Data::maxprocesses — set the "processes" member. -/
def maxprocesses (v : Int) (d : Data) : Data := { d with processes := some v }

/-- Data::maxmappers — set mapper.limit.processes (a no-op on the
descriptor when the "mapper" member is absent, see the json-c note). -/
def maxmappers (v : Int) (d : Data) : Data :=
  match d.mapper with
  | some e => { d with mapper := some { e with limit := { e.limit with processes := some v } } }
  | none => d

/-- Data::maxreducers — set reducer.limit.processes. -/
def maxreducers (v : Int) (d : Data) : Data :=
  match d.reducer with
  | some e => { d with reducer := some { e with limit := { e.limit with processes := some v } } }
  | none => d

/-- Data::maxfinalizers — value 0 removes the "finalizer" member
entirely, any other value sets finalizer.limit.processes. -/
def maxfinalizers (v : Int) (d : Data) : Data :=
  if v = 0 then { d with finalizer := none }
  else match d.finalizer with
  | some e => { d with finalizer := some { e with limit := { e.limit with processes := some v } } }
  | none => d

/-- Data::modulo (the setter; renamed because the record field of the
same name holds the stored value) — set the "modulo" member. -/
def setModulo (v : Int) (d : Data) : Data := { d with modulo := some v }

/-- Data::local — set the "local" member. -/
def setLocal (v : Bool) (d : Data) : Data := { d with localFlag := some v }

/-- Data::maxfiles — set the per-phase "files" limits, skipping zero
values (the C++ guards each set with `if (mapper)` etc.). -/
def maxfiles (m r f : Int) (d : Data) : Data :=
  let d1 := if m ≠ 0 then
    (match d.mapper with
     | some e => { d with mapper := some { e with limit := { e.limit with files := some m } } }
     | none => d)
    else d
  let d2 := if r ≠ 0 then
    (match d1.reducer with
     | some e => { d1 with reducer := some { e with limit := { e.limit with files := some r } } }
     | none => d1)
    else d1
  if f ≠ 0 then
    (match d2.finalizer with
     | some e => { d2 with finalizer := some { e with limit := { e.limit with files := some f } } }
     | none => d2)
  else d2

/-- Data::maxbytes — set the per-phase "bytes" limits, skipping zero
values. -/
def maxbytes (m r f : Int) (d : Data) : Data :=
  let d1 := if m ≠ 0 then
    (match d.mapper with
     | some e => { d with mapper := some { e with limit := { e.limit with bytes := some m } } }
     | none => d)
    else d
  let d2 := if r ≠ 0 then
    (match d1.reducer with
     | some e => { d1 with reducer := some { e with limit := { e.limit with bytes := some r } } }
     | none => d1)
    else d1
  if f ≠ 0 then
    (match d2.finalizer with
     | some e => { d2 with finalizer := some { e with limit := { e.limit with bytes := some f } } }
     | none => d2)
  else d2

/-- Data::maxrecords — set mapper.limit.records (unconditionally, there
is no zero guard in the source). -/
def maxrecords (m : Int) (d : Data) : Data :=
  match d.mapper with
  | some e => { d with mapper := some { e with limit := { e.limit with records := some m } } }
  | none => d

/-- Normalize a server argument: the C++ adds the "server" member only
when the pointer is non-null and the string is non-empty. -/
def serverOpt (server : Option String) : Option String :=
  match server with
  | some s => if s ≠ "" then some s else none
  | none => none

/-- Data::add — append an inline data entry to the input array. -/
def add (s : String) (d : Data) : Data :=
  { d with input := d.input ++ [InputEntry.dataEntry s] }

/-- Data::file — append a file slice entry to the input array. -/
def file (filename : String) (start size : Int) (remove : Bool)
    (server : Option String) (d : Data) : Data :=
  { d with input := d.input ++ [InputEntry.fileEntry filename start size remove (serverOpt server)] }

/-- Data::kv — append a key/value entry to the input array. -/
def kv (key value : String) (server : Option String) (d : Data) : Data :=
  { d with input := d.input ++ [InputEntry.kvEntry key value (serverOpt server)] }

/-- Data::directory — append a directory entry to the input array. -/
def directoryAdd (dirname : String) (remove : Bool) (server : Option String)
    (d : Data) : Data :=
  { d with input := d.input ++ [InputEntry.dirEntry dirname remove (serverOpt server)] }

/-- Data::tempqueue — record the reply address: an empty "exchange" and
the queue name as "routingkey". -/
def tempqueue (name : String) (d : Data) : Data :=
  { d with exchange := some "", routingkey := some name }

end Data

/-! ## The job state machine (src/jobimpl.h)

External effects are made observable through an event list, and outcomes
decided outside the process (broker availability, the arriving result)
are supplied through an `Env` record. -/

/-- The state enum of JobImpl. -/
inductive JState where
  | initial : JState
  | frozen : JState
  | running : JState
  | finished : JState
deriving DecidableEq

/-- The in-memory output file (Yothalot::Output): its name, its size and
whether it has been flushed. -/
structure DataFile where
  name : String
  size : Int
  flushed : Bool := false
deriving DecidableEq

/-- Observable external effects of the job operations. -/
inductive JEvent where
  | flushFile : String → JEvent
  | createQueue : String → JEvent
  | publishJob : Algorithm → JEvent
  | removeDir : String → JEvent
deriving DecidableEq

/-- Outcome of the client-side write phase during a local finalize.
The user's algorithm runs behind the Wrapper adaptor (src/wrapper.h):
a PHP exception raised by the algorithm is caught there and re-raised
through the host's fatal-error facility, which exits non-locally and is
not a C++ std::runtime_error — this is the `fatal` outcome.  A
std::runtime_error (for example from the WorkingDir helper or the
external write task) is the `runtimeErr` outcome. -/
inductive WriteOutcome where
  | ok : WriteOutcome
  | runtimeErr : WriteOutcome
  | fatal : WriteOutcome
deriving DecidableEq

/-- Environment: outcomes decided outside the job object. -/
structure Env where
  tempqueueOk : Bool
  queueName : String
  publishOk : Bool
  resultMsg : JObj
  writeOutcome : WriteOutcome

/-- The JobImpl state (src/jobimpl.h).  `dirRel` is the relative path of
the job's temp directory on the shared filesystem, as exposed by
JobImpl::directory(); it is `none` when the process has no real
shared-filesystem (GlusterFS) mount, in which case the external
Fullname::relative() call yields a null pointer.  `connJson` is the
serialized settings of the owning connection (core()->json()). -/
structure JobImpl where
  json : Data
  state : JState
  tempqueue : Option String := none
  datafile : Option DataFile := none
  result : JObj := []
  dirRel : Option String := some "tmp/job"
  connJson : JObj := []

namespace JobImpl

/-- JobImpl::isTask. -/
def isTask (j : JobImpl) : Bool := j.json.isTask

/-- JobImpl::isMapReduce. -/
def isMapReduce (j : JobImpl) : Bool := j.json.isMapReduce

/-- JobImpl::isError: a finished job is an error when the result object
is empty, when a task result carries a top-level "stderr" member, or
when the result carries a top-level "error" member. -/
def isError (j : JobImpl) : Bool :=
  if j.state ≠ JState.finished then false
  else if j.result.size = 0 then true
  else if j.isTask && j.result.containsKey "stderr" then true
  else if j.result.containsKey "error" then true
  else false

/-- JobImpl::isTunable: settings may still be changed while the job is
in the initialize or frozen state. -/
def isTunable (j : JobImpl) : Bool :=
  j.state = JState.initial || j.state = JState.frozen

/-- JobImpl::maxprocesses. -/
def maxprocesses (v : Int) (j : JobImpl) : Bool × JobImpl :=
  if j.state ≠ JState.initial then (false, j)
  else (true, { j with json := j.json.maxprocesses v })

/-- JobImpl::maxmappers. -/
def maxmappers (v : Int) (j : JobImpl) : Bool × JobImpl :=
  if j.state ≠ JState.initial then (false, j)
  else (true, { j with json := j.json.maxmappers v })

/-- JobImpl::maxreducers. -/
def maxreducers (v : Int) (j : JobImpl) : Bool × JobImpl :=
  if j.state ≠ JState.initial then (false, j)
  else (true, { j with json := j.json.maxreducers v })

/-- JobImpl::maxfinalizers. -/
def maxfinalizers (v : Int) (j : JobImpl) : Bool × JobImpl :=
  if j.state ≠ JState.initial then (false, j)
  else (true, { j with json := j.json.maxfinalizers v })

/-- JobImpl::modulo. -/
def setModulo (v : Int) (j : JobImpl) : Bool × JobImpl :=
  if j.state ≠ JState.initial then (false, j)
  else (true, { j with json := j.json.setModulo v })

/-- JobImpl::maxfiles — guarded by isTunable, not by the initialize
state. -/
def maxfiles (m r f : Int) (j : JobImpl) : Bool × JobImpl :=
  if !j.isTunable then (false, j)
  else (true, { j with json := j.json.maxfiles m r f })

/-- JobImpl::maxbytes — guarded by isTunable. -/
def maxbytes (m r f : Int) (j : JobImpl) : Bool × JobImpl :=
  if !j.isTunable then (false, j)
  else (true, { j with json := j.json.maxbytes m r f })

/-- JobImpl::maxrecords — guarded by isTunable. -/
def maxrecords (m : Int) (j : JobImpl) : Bool × JobImpl :=
  if !j.isTunable then (false, j)
  else (true, { j with json := j.json.maxrecords m })

/-- JobImpl::local — guarded by isTunable. -/
def setLocal (v : Bool) (j : JobImpl) : Bool × JobImpl :=
  if !j.isTunable then (false, j)
  else (true, { j with json := j.json.setLocal v })

/-- The case-insensitive "cache://" prefix test of JobImpl::sync
(strncasecmp(name, "cache://", 8) == 0). -/
def isCacheName (s : String) : Bool :=
  (s.toList.take 8).map Char.toLower = "cache://".toList

/-- JobImpl::sync(keep): nothing to do without a datafile; otherwise
flush the file, and either transfer a cache-stored file into the
descriptor's input array as a `filename/start=0/size/remove=true` entry
and drop the in-memory file, or drop the in-memory file exactly when
`keep` is false. -/
def sync (keep : Bool) (j : JobImpl) : Bool × JobImpl × List JEvent :=
  match j.datafile with
  | none => (false, j, [])
  | some f =>
    if isCacheName f.name then
      (true, { j with json := j.json.file f.name 0 f.size true none,
                      datafile := none }, [JEvent.flushFile f.name])
    else if !keep then
      (true, { j with datafile := none }, [JEvent.flushFile f.name])
    else
      (true, { j with datafile := some { f with flushed := true } },
       [JEvent.flushFile f.name])

/-- JobImpl::add (the string overload).  Only the state guards are
modelled precisely; when a datafile is available the record lands in the
file, otherwise (initialize state only) inline in the JSON.  The lazy
datafile construction of JobImpl::datafile() is summarized by the
`newfile` oracle: the file the external Output constructor would
produce, or none when construction fails. -/
def add (newfile : Option DataFile) (s : String) (j : JobImpl) : Bool × JobImpl :=
  if j.state = JState.running ∨ j.state = JState.finished then (false, j)
  else match j.datafile with
  | some _ => (true, j)
  | none =>
    match newfile with
    | some f => (true, { j with datafile := some f })
    | none =>
      if j.state ≠ JState.initial then (false, j)
      else (true, { j with json := j.json.add s })

/-- JobImpl::add (the key/value overload): also requires a mapreduce
job. -/
def addKV (newfile : Option DataFile) (key value : String)
    (server : Option String) (j : JobImpl) : Bool × JobImpl :=
  if j.state = JState.running ∨ j.state = JState.finished then (false, j)
  else if !j.isMapReduce then (false, j)
  else match j.datafile with
  | some _ => (true, j)
  | none =>
    match newfile with
    | some f => (true, { j with datafile := some f })
    | none =>
      if j.state ≠ JState.initial then (false, j)
      else (true, { j with json := j.json.kv key value server })

/-- JobImpl::file — appending a file entry works only in the initialize
state. -/
def file (filename : String) (start size : Int) (remove : Bool)
    (server : Option String) (j : JobImpl) : Bool × JobImpl :=
  if j.state ≠ JState.initial then (false, j)
  else (true, { j with json := j.json.file filename start size remove server })

/-- JobImpl::directory (the adder overload) — initialize state only. -/
def directoryAdd (dirname : String) (remove : Bool) (server : Option String)
    (j : JobImpl) : Bool × JobImpl :=
  if j.state ≠ JState.initial then (false, j)
  else (true, { j with json := j.json.directoryAdd dirname remove server })

/-- JobImpl::start.  Already running or finished: immediate success with
no further effect.  Otherwise: create the temp queue (an exception
leaves the job untouched), write its name into the descriptor, sync,
and publish; on publish failure the temp queue is discarded and the
state is unchanged. -/
def start (env : Env) (j : JobImpl) : Bool × JobImpl × List JEvent :=
  if j.state = JState.running ∨ j.state = JState.finished then (true, j, [])
  else if !env.tempqueueOk then (false, j, [])
  else
    let j1 := { j with tempqueue := some env.queueName,
                       json := j.json.tempqueue env.queueName }
    let s := sync false j1
    if env.publishOk then
      (true, { s.2.1 with state := JState.running },
       JEvent.createQueue env.queueName :: s.2.2 ++ [JEvent.publishJob s.2.1.json.kind])
    else
      (false, { s.2.1 with tempqueue := none },
       JEvent.createQueue env.queueName :: s.2.2)

/-- JobImpl::ready. -/
def ready (j : JobImpl) : Bool := j.state = JState.finished

/-- JobImpl::finalize, seen through its exception behaviour: a
std::runtime_error from the write phase is caught and turns into a
`false` return, a host fatal error (the fate of a PHP exception raised
by the user's algorithm, see `WriteOutcome`) propagates. -/
def finalizeLocal (w : WriteOutcome) : Except Unit Bool :=
  match w with
  | WriteOutcome.ok => Except.ok true
  | WriteOutcome.runtimeErr => Except.ok false
  | WriteOutcome.fatal => Except.error ()

/-- JobImpl::onReceived: mark the job finished and cache the result;
stop there on an error result, on a non-mapreduce job, or when the
cluster already ran the finalizers; otherwise, when the reply names a
result directory, run the local finalize when a "finalize" array is
present and then remove the directory.  A fatal error aborts before the
removal, so no removeDir event is emitted on that path. -/
def onReceived (msg : JObj) (w : WriteOutcome) (j : JobImpl) : JobImpl × List JEvent :=
  let j1 := { j with state := JState.finished, result := msg }
  if j1.isError then (j1, [])
  else if !j1.isMapReduce || (msg.objMember "finalizers").getInt "processes" > 0 then (j1, [])
  else
    let dir := msg.getStr "directory"
    if dir = "" then (j1, [])
    else if msg.isArrayMember "finalize" then
      match finalizeLocal w with
      | Except.ok _ => (j1, [JEvent.removeDir dir])
      | Except.error _ => (j1, [])
    else (j1, [JEvent.removeDir dir])

/-- JobImpl::wait: a finished job immediately reports its cached
success/error status; otherwise the job is started, and without a temp
queue (a detached job) waiting fails; with one, the result message is
received and the status reported. -/
def wait (env : Env) (j : JobImpl) : Bool × JobImpl × List JEvent :=
  if j.state = JState.finished then (!j.isError, j, [])
  else
    let s := start env j
    if !s.1 then (false, s.2.1, s.2.2)
    else match s.2.1.tempqueue with
    | none => (false, s.2.1, s.2.2)
    | some _ =>
      let r := onReceived env.resultMsg env.writeOutcome s.2.1
      (!r.1.isError, r.1, s.2.2 ++ r.2)

/-- JobImpl::detach: fails on a finished job; always discards the temp
queue; on an already running job nothing more is done; otherwise sync
and publish, and only a successful publish moves the job to running. -/
def detach (env : Env) (j : JobImpl) : Bool × JobImpl × List JEvent :=
  if j.state = JState.finished then (false, j, [])
  else
    let j1 := { j with tempqueue := none }
    if j.state = JState.running then (true, j1, [])
    else
      let s := sync false j1
      if env.publishOk then
        (true, { s.2.1 with state := JState.running },
         s.2.2 ++ [JEvent.publishJob s.2.1.json.kind])
      else (false, s.2.1, s.2.2)

end JobImpl

/-! ## The PHP-level wait wrapper (src/job.h)

Job::wait produces one of six result classes: a success variant or an
error variant for each algorithm kind, selected by the boolean returned
from JobImpl::wait. -/

inductive ResultClass where
  | mapredResult : ResultClass
  | mapredError : ResultClass
  | raceResult : ResultClass
  | raceError : ResultClass
  | taskResult : ResultClass
  | taskError : ResultClass
deriving DecidableEq

/-- Is this one of the error-variant result classes? -/
def ResultClass.isErrorVariant : ResultClass → Bool
  | ResultClass.mapredError => true
  | ResultClass.raceError => true
  | ResultClass.taskError => true
  | _ => false

/-- Job::wait (src/job.h): pick the success or error variant of the
result class for the job's algorithm kind. -/
def phpWait (env : Env) (j : JobImpl) : ResultClass :=
  let success := (JobImpl.wait env j).1
  match j.json.kind with
  | Algorithm.race => if success then ResultClass.raceResult else ResultClass.raceError
  | Algorithm.mapreduce => if success then ResultClass.mapredResult else ResultClass.mapredError
  | Algorithm.job => if success then ResultClass.taskResult else ResultClass.taskError

/-! ## The serialization envelope (src/serialized.h) -/

/-- The envelope written by Serialized::Serialized: one member holds the
job descriptor, the other the connection settings. -/
structure Envelope where
  connection : JObj
  job : Data

/-- The designated error of Serialized::Serialized. -/
def serializeError : String :=
  "Only jobs that are started with access to a GlusterFS mount point can be serialized"

/-- Serialized::Serialized: refuse (std::runtime_error) when the job
exposes no directory on the shared filesystem, otherwise emit the
`{connection, job}` envelope. -/
def serializedOf (j : JobImpl) : Except String Envelope :=
  match j.dirRel with
  | none => Except.error serializeError
  | some _ => Except.ok { connection := j.connJson, job := j.json }

/-! ## The descriptor set (src/descriptors.h)

File descriptors are nonnegative (POSIX), so they are modelled as
naturals.  The AMQP flag constants are readable = 1 and writable = 2. -/

def readableFlag : Nat := 1

def writableFlag : Nat := 2

/-- The Descriptors class: the all/readable/writable sets plus the
tracked highest descriptor. -/
structure Descriptors where
  allSet : Finset Nat := ∅
  readSet : Finset Nat := ∅
  writeSet : Finset Nat := ∅
  highest : Nat := 0

namespace Descriptors

/-- Descriptors::remove: erase the descriptor from all three sets; when
it was the tracked maximum, recompute the maximum as the largest
remaining member of the all-set, or zero when that set is empty. -/
def removeFd (fd : Nat) (s : Descriptors) : Descriptors :=
  let all2 := s.allSet.erase fd
  let r2 := s.readSet.erase fd
  let w2 := s.writeSet.erase fd
  if fd ≠ s.highest then { allSet := all2, readSet := r2, writeSet := w2, highest := s.highest }
  else { allSet := all2, readSet := r2, writeSet := w2,
         highest := if all2 = ∅ then 0 else all2.fold max 0 id }

/-- Descriptors::add(fd, flags): flags 0 delegates to removal; otherwise
insert into the all-set, into the readable/writable subsets according to
the flag bits, and bump the tracked maximum when exceeded. -/
def addFd (fd flags : Nat) (s : Descriptors) : Descriptors :=
  if flags = 0 then removeFd fd s
  else
    { allSet := insert fd s.allSet,
      readSet := if flags &&& readableFlag ≠ 0 then insert fd s.readSet else s.readSet,
      writeSet := if flags &&& writableFlag ≠ 0 then insert fd s.writeSet else s.writeSet,
      highest := if fd > s.highest then fd else s.highest }

/-- Descriptors::add(const Descriptors &): merge the three sets and take
the larger tracked maximum. -/
def merge (s : Descriptors) (t : Descriptors) : Descriptors :=
  { allSet := s.allSet ∪ t.allSet,
    readSet := s.readSet ∪ t.readSet,
    writeSet := s.writeSet ∪ t.writeSet,
    highest := max s.highest t.highest }

/-- The invariant of the claim: the tracked maximum is the largest
member of the all-set when non-empty and zero when empty, and the
readable and writable subsets are contained in the all-set. -/
def Inv (s : Descriptors) : Prop :=
  (s.allSet.Nonempty → s.highest ∈ s.allSet ∧ ∀ x ∈ s.allSet, x ≤ s.highest) ∧
  (s.allSet = ∅ → s.highest = 0) ∧
  s.readSet ⊆ s.allSet ∧ s.writeSet ⊆ s.allSet

end Descriptors

/-- One operation on a descriptor set: add (flags 0 removing), remove,
or merging another descriptor set. -/
inductive DOp where
  | add : Nat → Nat → DOp
  | rem : Nat → DOp
  | mergeWith : Descriptors → DOp

/-- Apply one operation. -/
def applyDOp (s : Descriptors) : DOp → Descriptors
  | DOp.add fd flags => s.addFd fd flags
  | DOp.rem fd => s.removeFd fd
  | DOp.mergeWith t => s.merge t

/-- Run a sequence of operations from the freshly constructed set. -/
def runDOps (ops : List DOp) : Descriptors :=
  ops.foldl applyDOp {}

/-- Every merged-in set itself satisfies the invariant (merged sets are
other Descriptors instances, built by the same operations). -/
def DOpsOK (ops : List DOp) : Prop :=
  ∀ op ∈ ops, match op with
  | DOp.mergeWith t => t.Inv
  | _ => True

/-! ## The pool (src/pool.h)

A pool entry is a started job together with its readiness (ready()
becomes true when the job registers the arrival of its result while the
combined event loop runs).  An event-loop step is summarized by the id
of the job whose result it delivers; the event list plays the role of
the activity of the sockets over time. -/

/-- One job monitored by a pool. -/
structure PoolJob where
  id : Nat
  ready : Bool
deriving DecidableEq

/-- Pool::extract: scan the job map and remove and return the first job
whose ready() is true. -/
def extract : List PoolJob → Option (PoolJob × List PoolJob)
  | [] => none
  | j :: rest =>
    if j.ready then some (j, rest)
    else (extract rest).map (fun p => (p.1, j :: p.2))

/-- One event-loop step delivering a result to the job with this id. -/
def deliver (e : Nat) (jobs : List PoolJob) : List PoolJob :=
  jobs.map (fun j => if j.id = e then { j with ready := true } else j)

/-- The waiting loop of Pool::wait: while jobs remain, extract a ready
one, or take one more step in the event loop.  The outer `none` is the
case in which the event list runs out while no job is ready — the real
loop would block in select forever. -/
def waitGo : List Nat → List PoolJob → Option (Option Nat × List PoolJob × List Nat)
  | [], jobs =>
    if jobs.isEmpty then some (none, jobs, [])
    else match extract jobs with
    | some (j, rest) => some (some j.id, rest, [])
    | none => none
  | e :: es, jobs =>
    if jobs.isEmpty then some (none, jobs, e :: es)
    else match extract jobs with
    | some (j, rest) => some (some j.id, rest, e :: es)
    | none => waitGo es (deliver e jobs)

/-- The pool state: the monitored jobs and whether the handler set is
still non-empty. -/
structure PoolState where
  jobs : List PoolJob
  handlers : Bool
deriving DecidableEq

/-- Pool::wait: null with no handlers left; otherwise run the combined
loop; when the job map drains without a ready job the handler set is
cleared and null is returned. -/
def poolWait (s : PoolState) (evs : List Nat) :
    Option (Option Nat × PoolState × List Nat) :=
  if !s.handlers then some (none, s, evs)
  else match waitGo evs s.jobs with
  | none => none
  | some (some jid, jobs2, evs2) => some (some jid, { jobs := jobs2, handlers := s.handlers }, evs2)
  | some (none, jobs2, evs2) => some (none, { jobs := jobs2, handlers := false }, evs2)

/-- Run `n` successive Pool::wait calls, logging for each call the
returned job id (or null) and the pool size after the call. -/
def runWaitCalls : Nat → PoolState → List Nat → Option (List (Option Nat × Nat))
  | 0, _, _ => some []
  | n + 1, s, evs =>
    match poolWait s evs with
    | none => none
    | some (out, s2, evs2) =>
      (runWaitCalls n s2 evs2).map (fun log => (out, s2.jobs.length) :: log)

/-- Every job of the pool eventually receives its result: each not yet
ready job's id occurs in the remaining event list. -/
def Covered (jobs : List PoolJob) (evs : List Nat) : Prop :=
  ∀ j ∈ jobs, j.ready = true ∨ j.id ∈ evs

/-! ## Concrete instances used to evaluate the verified operations -/

/-- A mapreduce descriptor as Data's constructor produces it: the
mapper, reducer and finalizer members are present. -/
def mapredData : Data :=
  { kind := Algorithm.mapreduce, processes := some 20, modulo := some 1,
    mapper := some {}, reducer := some {}, finalizer := some {} }

/-- A plain task descriptor: no mapper/reducer/finalizer members. -/
def taskData : Data := { kind := Algorithm.job }

/-- An environment in which the broker cooperates. -/
def sampleEnv : Env :=
  { tempqueueOk := true, queueName := "q1", publishOk := true,
    resultMsg := [], writeOutcome := WriteOutcome.ok }

/-- A freshly constructed mapreduce job. -/
def initJob : JobImpl := { json := mapredData, state := JState.initial }

/-- A mapreduce job frozen by serialization. -/
def frozenJob : JobImpl := { json := mapredData, state := JState.frozen }

/-- A mapreduce job that has been started. -/
def runningJob : JobImpl := { json := mapredData, state := JState.running }

/-- A finished task job whose result carries a top-level stderr. -/
def finishedTaskJob : JobImpl :=
  { json := taskData, state := JState.finished,
    result := [("stderr", JValue.jstr "boom")] }

/-- A finished mapreduce job with a successful result. -/
def finishedJob : JobImpl :=
  { json := mapredData, state := JState.finished,
    result := [("started", JValue.jint 1)] }

/-- A job without a directory on the shared filesystem. -/
def noDirJob : JobImpl := { json := mapredData, state := JState.initial, dirRel := none }

/-- A job whose datafile is stored as a cache object. -/
def cacheFileJob : JobImpl :=
  { json := mapredData, state := JState.initial,
    datafile := some { name := "cache://obj1", size := 10 } }

/-- The claim's literal reading of a name "starting with cache://": a
case-sensitive prefix test (contrast with `JobImpl.isCacheName`, the
case-insensitive test the code performs). -/
def literalCachePrefix (s : String) : Bool :=
  "cache://".toList.isPrefixOf s.toList

/-- A job whose datafile name matches the cache prefix only
case-insensitively. -/
def oddCaseJob : JobImpl :=
  { json := mapredData, state := JState.initial,
    datafile := some { name := "CACHE://x", size := 4 } }

/-- A reply that asks the client to run the finalize phase locally. -/
def sampleFinalizeMsg : JObj :=
  [("finalizers", JValue.jobj [("processes", JValue.jint 0)]),
   ("directory", JValue.jstr "tmp/out"),
   ("finalize", JValue.jarr [JValue.jstr "file0"])]

/-- A concrete trace of descriptor-set operations. -/
def dOpsW : List DOp :=
  [DOp.add 5 1, DOp.add 3 2, DOp.add 9 3, DOp.rem 9, DOp.add 4 0,
   DOp.mergeWith { allSet := {2}, readSet := {2}, writeSet := ∅, highest := 2 },
   DOp.rem 5]

/-- Two started, not yet finished pool jobs. -/
def poolJobsW : List PoolJob := [{ id := 1, ready := false }, { id := 2, ready := false }]

/-- Socket activity delivering both results. -/
def poolEvsW : List Nat := [2, 1]

/-! ## Helper lemmas -/

/-- Synchronizing never touches the temp queue. -/
theorem sync_tempqueue (keep : Bool) (j : JobImpl) :
    ((JobImpl.sync keep j).2.1).tempqueue = j.tempqueue := by
  unfold JobImpl.sync
  rcases hd : j.datafile with _ | f
  · rfl
  · by_cases hc : JobImpl.isCacheName f.name <;> by_cases hk : keep <;> simp [hc, hk]

/-- Synchronizing never changes the state. -/
theorem sync_state (keep : Bool) (j : JobImpl) :
    ((JobImpl.sync keep j).2.1).state = j.state := by
  unfold JobImpl.sync
  rcases hd : j.datafile with _ | f
  · rfl
  · by_cases hc : JobImpl.isCacheName f.name <;> by_cases hk : keep <;> simp [hc, hk]

/-- Synchronizing emits only flush events. -/
theorem sync_events (keep : Bool) (j : JobImpl) :
    ∀ e ∈ (JobImpl.sync keep j).2.2, ∃ n, e = JEvent.flushFile n := by
  unfold JobImpl.sync
  rcases hd : j.datafile with _ | f
  · simp
  · by_cases hc : JobImpl.isCacheName f.name <;> by_cases hk : keep <;>
      simp [hc, hk]

/-! ## C4 -/

/-- C4: start() is idempotent once the job is running — a second call
returns true, publishes nothing, creates no temp queue and leaves the
job (state included) untouched. -/
theorem start_idempotent_once_running (env : Env) (j : JobImpl)
    (h : j.state = JState.running) :
    JobImpl.start env j = (true, j, []) := by
  unfold JobImpl.start
  rw [if_pos (Or.inl h)]

/-- Witness for C4 at a concrete running job. -/
theorem start_idempotent_once_running_witness :
    runningJob.state = JState.running ∧
    JobImpl.start sampleEnv runningJob = (true, runningJob, []) :=
  ⟨rfl, start_idempotent_once_running sampleEnv runningJob rfl⟩

/-! ## C10 -/

/-- C10: the finished state is terminal — start() succeeds with no
effect, wait() immediately reports the cached status, detach() fails,
and every input appender fails, all leaving the job untouched. -/
theorem finished_state_terminal (env : Env) (j : JobImpl)
    (h : j.state = JState.finished) (nf : Option DataFile)
    (s k v fn dn : String) (st sz : Int) (rm : Bool) (srv : Option String) :
    JobImpl.start env j = (true, j, []) ∧
    JobImpl.wait env j = (!j.isError, j, []) ∧
    JobImpl.detach env j = (false, j, []) ∧
    JobImpl.add nf s j = (false, j) ∧
    JobImpl.addKV nf k v srv j = (false, j) ∧
    JobImpl.file fn st sz rm srv j = (false, j) ∧
    JobImpl.directoryAdd dn rm srv j = (false, j) := by
  refine ⟨?_, ?_, ?_, ?_, ?_, ?_, ?_⟩
  · unfold JobImpl.start
    rw [if_pos (Or.inr h)]
  · unfold JobImpl.wait
    rw [if_pos h]
  · unfold JobImpl.detach
    rw [if_pos h]
  · unfold JobImpl.add
    rw [if_pos (Or.inr h)]
  · unfold JobImpl.addKV
    rw [if_pos (Or.inr h)]
  · unfold JobImpl.file
    rw [if_pos (by rw [h]; decide)]
  · unfold JobImpl.directoryAdd
    rw [if_pos (by rw [h]; decide)]

/-- Witness for C10 at a concrete finished job. -/
theorem finished_state_terminal_witness :
    finishedJob.state = JState.finished ∧
    JobImpl.detach sampleEnv finishedJob = (false, finishedJob, []) ∧
    JobImpl.add none "x" finishedJob = (false, finishedJob) :=
  ⟨rfl,
   (finished_state_terminal sampleEnv finishedJob rfl none "x" "k" "v" "f" "d"
      0 0 false none).2.2.1,
   (finished_state_terminal sampleEnv finishedJob rfl none "x" "k" "v" "f" "d"
      0 0 false none).2.2.2.1⟩

/-! ## C7 -/

/-- C7: serializing a job without a real shared-filesystem directory is
refused with the designated runtime error; a job with one serializes
into the `{connection, job}` envelope. -/
theorem serialize_directory_guard (j : JobImpl) :
    (j.dirRel = none → serializedOf j = Except.error serializeError) ∧
    (∀ d, j.dirRel = some d →
      serializedOf j = Except.ok { connection := j.connJson, job := j.json }) := by
  constructor
  · intro h
    unfold serializedOf
    rw [h]
  · intro d h
    unfold serializedOf
    rw [h]

/-- Witness for C7: one refused and one accepted serialization. -/
theorem serialize_directory_guard_witness :
    serializedOf noDirJob = Except.error serializeError ∧
    serializedOf initJob =
      Except.ok { connection := initJob.connJson, job := initJob.json } :=
  ⟨(serialize_directory_guard noDirJob).1 rfl,
   (serialize_directory_guard initJob).2 "tmp/job" rfl⟩

/-! ## C1 -/

/-- C1 counterexample: the claim says every knob setter fails once the
job is no longer in the initialize state, but maxbytes (like maxfiles,
maxrecords and local) is guarded by isTunable, which also accepts the
frozen state — on a frozen job it returns true, not false. -/
theorem maxbytes_frozen_succeeds :
    frozenJob.state ≠ JState.initial ∧
    (JobImpl.maxbytes 1 2 3 frozenJob).1 = true := by
  constructor
  · decide
  · rfl

/-- C1 amended: the setters maxprocesses, maxmappers, maxreducers,
maxfinalizers and modulo return false and leave the descriptor untouched
whenever the state is not initialize; the isTunable-guarded setters
maxfiles, maxbytes, maxrecords and local return false and leave the
descriptor untouched whenever the state is running or finished (they
still succeed on a frozen job). -/
theorem knob_setters_state_guard (j : JobImpl) (v m r f : Int) (b : Bool) :
    (j.state ≠ JState.initial →
      JobImpl.maxprocesses v j = (false, j) ∧
      JobImpl.maxmappers v j = (false, j) ∧
      JobImpl.maxreducers v j = (false, j) ∧
      JobImpl.maxfinalizers v j = (false, j) ∧
      JobImpl.setModulo v j = (false, j)) ∧
    ((j.state = JState.running ∨ j.state = JState.finished) →
      JobImpl.maxfiles m r f j = (false, j) ∧
      JobImpl.maxbytes m r f j = (false, j) ∧
      JobImpl.maxrecords m j = (false, j) ∧
      JobImpl.setLocal b j = (false, j)) := by
  constructor
  · intro h
    refine ⟨?_, ?_, ?_, ?_, ?_⟩ <;>
      simp [JobImpl.maxprocesses, JobImpl.maxmappers, JobImpl.maxreducers,
        JobImpl.maxfinalizers, JobImpl.setModulo, h]
  · intro h
    have ht : j.isTunable = false := by
      unfold JobImpl.isTunable
      rcases h with h | h <;> rw [h] <;> decide
    refine ⟨?_, ?_, ?_, ?_⟩ <;>
      simp [JobImpl.maxfiles, JobImpl.maxbytes, JobImpl.maxrecords,
        JobImpl.setLocal, ht]

/-- Witness for C1 (amended) at a concrete finished job, which falls
under both guards. -/
theorem knob_setters_state_guard_witness :
    finishedJob.state ≠ JState.initial ∧
    JobImpl.maxprocesses 5 finishedJob = (false, finishedJob) ∧
    JobImpl.maxbytes 1 2 3 finishedJob = (false, finishedJob) :=
  ⟨by decide,
   ((knob_setters_state_guard finishedJob 5 1 2 3 true).1 (by decide)).1,
   ((knob_setters_state_guard finishedJob 5 1 2 3 true).2 (Or.inr rfl)).2.1⟩

/-! ## C2 -/

/-- C2: a finished job's cached result is classified as an error exactly
when the result object is empty, carries a top-level "error" member, or
(for a task) carries a top-level "stderr" member; in exactly these cases
wait() reports failure and the PHP wrapper produces the error-variant
result class. -/
theorem error_classification (env : Env) (j : JobImpl)
    (h : j.state = JState.finished) :
    (j.isError = (decide (j.result.size = 0) || j.result.containsKey "error" ||
        (j.isTask && j.result.containsKey "stderr"))) ∧
    ((JobImpl.wait env j).1 = !j.isError) ∧
    ((phpWait env j).isErrorVariant = j.isError) := by
  have hw : JobImpl.wait env j = (!j.isError, j, []) := by
    unfold JobImpl.wait
    rw [if_pos h]
  refine ⟨?_, ?_, ?_⟩
  · unfold JobImpl.isError
    rw [h]
    split_ifs with h0 h1 h2 h3 <;> simp_all
  · rw [hw]
  · unfold phpWait
    rw [hw]
    cases hk : j.json.kind <;> cases hie : j.isError <;>
      simp [ResultClass.isErrorVariant]

/-- Witness for C2: a finished task whose result carries stderr. -/
theorem error_classification_witness :
    finishedTaskJob.state = JState.finished ∧
    finishedTaskJob.isError = true ∧
    (JobImpl.wait sampleEnv finishedTaskJob).1 = false ∧
    phpWait sampleEnv finishedTaskJob = ResultClass.taskError :=
  ⟨rfl, by
    have hc := (error_classification sampleEnv finishedTaskJob rfl).1
    simpa using hc,
   by
    have hc := (error_classification sampleEnv finishedTaskJob rfl).2.1
    simpa using hc,
   by rfl⟩

/-! ## C5 -/

/-- Waiting on a running job that has no temp queue (a detached job)
fails immediately and changes nothing. -/
theorem wait_detached (env : Env) (j : JobImpl)
    (hst : j.state = JState.running) (htq : j.tempqueue = none) :
    JobImpl.wait env j = (false, j, []) := by
  have hs : JobImpl.start env j = (true, j, []) := by
    unfold JobImpl.start
    rw [if_pos (Or.inl hst)]
  unfold JobImpl.wait
  rw [if_neg (by rw [hst]; decide), hs]
  simp [htq]

/-- C5: detaching a job that was never started publishes the descriptor
and moves the job to running, but creates no feedback channel, and every
subsequent wait() on it fails instead of blocking. -/
theorem detach_before_start_spec (env : Env) (j : JobImpl)
    (h : j.state = JState.initial) (hp : env.publishOk = true) :
    ∃ j2 evs, JobImpl.detach env j = (true, j2, evs) ∧
      j2.state = JState.running ∧
      j2.tempqueue = none ∧
      JEvent.publishJob j2.json.kind ∈ evs ∧
      (∀ q, JEvent.createQueue q ∉ evs) ∧
      (∀ env2, JobImpl.wait env2 j2 = (false, j2, [])) := by
  have h1 : ¬ j.state = JState.finished := by rw [h]; decide
  have h2 : ¬ j.state = JState.running := by rw [h]; decide
  unfold JobImpl.detach
  rw [if_neg h1, if_neg h2]
  simp only [hp, if_true]
  set s := JobImpl.sync false { j with tempqueue := none } with hsdef
  refine ⟨_, _, rfl, rfl, ?_, ?_, ?_, ?_⟩
  · show s.2.1.tempqueue = none
    rw [sync_tempqueue]
  · exact List.mem_append_right _ (List.mem_singleton.mpr rfl)
  · intro q hq
    rcases List.mem_append.mp hq with hq | hq
    · rcases sync_events false { j with tempqueue := none } _ hq with ⟨n, hn⟩
      exact JEvent.noConfusion hn
    · exact JEvent.noConfusion (List.mem_singleton.mp hq)
  · intro env2
    exact wait_detached env2 _ rfl (by rw [sync_tempqueue])

/-- Witness for C5 at a concrete fresh job. -/
theorem detach_before_start_spec_witness :
    initJob.state = JState.initial ∧ sampleEnv.publishOk = true ∧
    ∃ j2 evs, JobImpl.detach sampleEnv initJob = (true, j2, evs) ∧
      j2.state = JState.running ∧
      j2.tempqueue = none ∧
      JEvent.publishJob j2.json.kind ∈ evs ∧
      (∀ q, JEvent.createQueue q ∉ evs) ∧
      (∀ env2, JobImpl.wait env2 j2 = (false, j2, [])) :=
  ⟨rfl, rfl, detach_before_start_spec sampleEnv initJob rfl rfl⟩

/-! ## C6 -/

/-- C6: when a mapreduce reply triggers a local finalize and the user's
algorithm raises an exception during the client-side write phase (which
surfaces as a host fatal error, not as a std::runtime_error, see
`WriteOutcome`), the job still ends finished with the reply cached, and
no removeDir event is emitted — the result directory named in the reply
is left behind on disk. -/
theorem local_finalize_exception_leaves_directory (j : JobImpl) (msg : JObj)
    (hmr : j.json.kind = Algorithm.mapreduce)
    (hsz : msg.size ≠ 0)
    (herr : msg.containsKey "error" = false)
    (hfp : (msg.objMember "finalizers").getInt "processes" ≤ 0)
    (hdir : msg.getStr "directory" ≠ "")
    (hfz : msg.isArrayMember "finalize" = true) :
    JobImpl.onReceived msg WriteOutcome.fatal j =
      ({ j with state := JState.finished, result := msg }, []) := by
  have htask : Data.isTask j.json = false := by
    unfold Data.isTask
    rw [hmr]
    rfl
  have hmr2 : Data.isMapReduce j.json = true := by
    unfold Data.isMapReduce
    rw [hmr]
    rfl
  have hie : JobImpl.isError { j with state := JState.finished, result := msg } = false := by
    unfold JobImpl.isError
    simp [JobImpl.isTask, htask, hsz, herr]
  have hmp : ((!JobImpl.isMapReduce { j with state := JState.finished, result := msg }) ||
      decide ((msg.objMember "finalizers").getInt "processes" > 0)) = false := by
    simp [JobImpl.isMapReduce, hmr2]
    omega
  unfold JobImpl.onReceived
  simp [hie, hmp, hfz, hdir, JobImpl.finalizeLocal]

/-- Witness for C6 at a concrete job and reply. -/
theorem local_finalize_exception_leaves_directory_witness :
    runningJob.json.kind = Algorithm.mapreduce ∧
    JObj.size sampleFinalizeMsg ≠ 0 ∧
    JObj.containsKey sampleFinalizeMsg "error" = false ∧
    (JObj.objMember sampleFinalizeMsg "finalizers").getInt "processes" ≤ 0 ∧
    JObj.getStr sampleFinalizeMsg "directory" ≠ "" ∧
    JObj.isArrayMember sampleFinalizeMsg "finalize" = true ∧
    JobImpl.onReceived sampleFinalizeMsg WriteOutcome.fatal runningJob =
      ({ runningJob with state := JState.finished, result := sampleFinalizeMsg }, []) :=
  ⟨rfl, by decide, by rfl, by decide, by decide, by rfl,
   local_finalize_exception_leaves_directory runningJob sampleFinalizeMsg rfl
     (by decide) (by rfl) (by decide) (by decide) (by rfl)⟩

/-! ## C3 -/

/-- C3 counterexample: the cache test of sync is case-insensitive
(strncasecmp), so a datafile named "CACHE://x" — which does not start
with the literal "cache://" — is nevertheless treated as a cache object:
with keep = true the in-memory file is discarded, where the claim's
"otherwise" branch requires it to be kept. -/
theorem sync_cache_prefix_case_counterexample :
    literalCachePrefix "CACHE://x" = false ∧
    (∃ f, oddCaseJob.datafile = some f ∧ f.name = "CACHE://x") ∧
    ((JobImpl.sync true oddCaseJob).2.1).datafile = none := by
  refine ⟨by decide, ⟨{ name := "CACHE://x", size := 4 }, rfl, rfl⟩, ?_⟩
  rfl

/-- C3 amended ("starts with cache://" read case-insensitively, as
strncasecmp compares): sync(keep) on a job with a datafile flushes that
file; when its name starts with "cache://" (case-insensitively) an input
entry {filename, start 0, size, remove true} is appended to the
descriptor and the in-memory file is dropped regardless of keep;
otherwise the descriptor is untouched and the file is dropped exactly
when keep is false. -/
theorem sync_flush_spec (keep : Bool) (j : JobImpl) (f : DataFile)
    (h : j.datafile = some f) :
    ∃ j2, JobImpl.sync keep j = (true, j2, [JEvent.flushFile f.name]) ∧
      (JobImpl.isCacheName f.name = true →
        j2.json.input = j.json.input ++ [InputEntry.fileEntry f.name 0 f.size true none] ∧
        j2.datafile = none) ∧
      (JobImpl.isCacheName f.name = false →
        j2.json = j.json ∧
        j2.datafile = (if keep then some { f with flushed := true } else none)) := by
  have hgoal : JobImpl.sync keep j =
      (if JobImpl.isCacheName f.name then
        (true, { j with json := j.json.file f.name 0 f.size true none, datafile := none },
         [JEvent.flushFile f.name])
      else if !keep then
        (true, { j with datafile := none }, [JEvent.flushFile f.name])
      else
        (true, { j with datafile := some { f with flushed := true } },
         [JEvent.flushFile f.name])) := by
    unfold JobImpl.sync
    rw [h]
  by_cases hc : JobImpl.isCacheName f.name
  · rw [hgoal, if_pos hc]
    refine ⟨_, rfl, fun _ => ⟨?_, rfl⟩,
      fun hrc => by rw [hc] at hrc; exact Bool.noConfusion hrc⟩
    show (Data.file f.name 0 f.size true none j.json).input = _
    unfold Data.file Data.serverOpt
    rfl
  · have hc2 : JobImpl.isCacheName f.name = false := by simpa using hc
    rw [hgoal, if_neg hc]
    cases keep
    · rw [if_pos (by decide)]
      exact ⟨_, rfl, fun hrc => absurd hrc (by simp [hc2]), fun _ => ⟨rfl, rfl⟩⟩
    · rw [if_neg (by decide)]
      exact ⟨_, rfl, fun hrc => absurd hrc (by simp [hc2]), fun _ => ⟨rfl, rfl⟩⟩

/-- Witness for C3 (amended) at a job with a cache-named datafile. -/
theorem sync_flush_spec_witness :
    cacheFileJob.datafile = some { name := "cache://obj1", size := 10 } ∧
    ∃ j2, JobImpl.sync false cacheFileJob = (true, j2, [JEvent.flushFile "cache://obj1"]) ∧
      (JobImpl.isCacheName "cache://obj1" = true →
        j2.json.input = cacheFileJob.json.input ++
          [InputEntry.fileEntry "cache://obj1" 0 10 true none] ∧
        j2.datafile = none) ∧
      (JobImpl.isCacheName "cache://obj1" = false →
        j2.json = cacheFileJob.json ∧
        j2.datafile = (if false then some { name := "cache://obj1", size := 10, flushed := true } else none)) :=
  ⟨rfl, sync_flush_spec false cacheFileJob { name := "cache://obj1", size := 10 } rfl⟩

/-! ## C9 -/

/-- Folding max over a non-empty finite set of naturals (the recomputed
maximum of Descriptors::remove) yields a member bounding all members. -/
theorem fold_max_spec (t : Finset Nat) (h : t.Nonempty) :
    t.fold max 0 id ∈ t ∧ ∀ x ∈ t, x ≤ t.fold max 0 id := by
  induction t using Finset.induction_on with
  | empty => exact absurd h (by simp)
  | insert ha ih =>
    rename_i a s
    rw [Finset.fold_insert ha]
    rcases Finset.eq_empty_or_nonempty s with rfl | hs
    · constructor
      · simp
      · intro x hx
        rcases Finset.mem_insert.mp hx with rfl | hx
        · exact le_max_left _ _
        · exact absurd hx (Finset.not_mem_empty x)
    · obtain ⟨hmem, hbnd⟩ := ih hs
      constructor
      · rcases le_total (id a) (s.fold max 0 id) with hle | hle
        · rw [max_eq_right hle]
          exact Finset.mem_insert_of_mem hmem
        · rw [max_eq_left hle]
          exact Finset.mem_insert_self _ _
      · intro x hx
        rcases Finset.mem_insert.mp hx with rfl | hx
        · exact le_max_left _ _
        · exact le_trans (hbnd x hx) (le_max_right _ _)

/-- The invariant holds for a freshly constructed descriptor set. -/
theorem inv_empty_descriptors : ({} : Descriptors).Inv :=
  ⟨fun h => absurd h (by simp [Finset.not_nonempty_empty]),
   fun _ => rfl, Finset.Subset.refl _, Finset.Subset.refl _⟩

/-- Descriptors::remove preserves the invariant. -/
theorem removeFd_inv (fd : Nat) (s : Descriptors) (hs : s.Inv) :
    (s.removeFd fd).Inv := by
  obtain ⟨h1, h2, hr, hw⟩ := hs
  unfold Descriptors.removeFd
  dsimp only
  by_cases hfd : fd ≠ s.highest
  · rw [if_pos hfd]
    unfold Descriptors.Inv
    dsimp only
    refine ⟨?_, ?_, ?_, ?_⟩
    · intro hne
      obtain ⟨y, hy⟩ := hne
      have hall : s.allSet.Nonempty := ⟨y, Finset.mem_of_mem_erase hy⟩
      obtain ⟨hmem, hbnd⟩ := h1 hall
      exact ⟨Finset.mem_erase.mpr ⟨Ne.symm hfd, hmem⟩,
        fun x hx => hbnd x (Finset.mem_of_mem_erase hx)⟩
    · intro he
      rcases Finset.eq_empty_or_nonempty s.allSet with hall | hall
      · exact h2 hall
      · obtain ⟨hmem, _⟩ := h1 hall
        have hmem2 : s.highest ∈ s.allSet.erase fd :=
          Finset.mem_erase.mpr ⟨Ne.symm hfd, hmem⟩
        rw [he] at hmem2
        exact absurd hmem2 (Finset.not_mem_empty _)
    · intro x hx
      exact Finset.mem_erase.mpr ⟨(Finset.mem_erase.mp hx).1,
        hr (Finset.mem_of_mem_erase hx)⟩
    · intro x hx
      exact Finset.mem_erase.mpr ⟨(Finset.mem_erase.mp hx).1,
        hw (Finset.mem_of_mem_erase hx)⟩
  · rw [if_neg hfd]
    unfold Descriptors.Inv
    dsimp only
    by_cases he : s.allSet.erase fd = ∅
    · rw [if_pos he]
      refine ⟨?_, fun _ => rfl, ?_, ?_⟩
      · intro hne
        rw [he] at hne
        exact absurd hne (by simp [Finset.not_nonempty_empty])
      · intro x hx
        exact Finset.mem_erase.mpr ⟨(Finset.mem_erase.mp hx).1,
          hr (Finset.mem_of_mem_erase hx)⟩
      · intro x hx
        exact Finset.mem_erase.mpr ⟨(Finset.mem_erase.mp hx).1,
          hw (Finset.mem_of_mem_erase hx)⟩
    · rw [if_neg he]
      have hne : (s.allSet.erase fd).Nonempty := Finset.nonempty_iff_ne_empty.mpr he
      obtain ⟨hmem, hbnd⟩ := fold_max_spec (s.allSet.erase fd) hne
      refine ⟨fun _ => ⟨hmem, hbnd⟩, fun h0 => absurd h0 he, ?_, ?_⟩
      · intro x hx
        exact Finset.mem_erase.mpr ⟨(Finset.mem_erase.mp hx).1,
          hr (Finset.mem_of_mem_erase hx)⟩
      · intro x hx
        exact Finset.mem_erase.mpr ⟨(Finset.mem_erase.mp hx).1,
          hw (Finset.mem_of_mem_erase hx)⟩

/-- Descriptors::add(fd, flags) preserves the invariant. -/
theorem addFd_inv (fd flags : Nat) (s : Descriptors) (hs : s.Inv) :
    (s.addFd fd flags).Inv := by
  unfold Descriptors.addFd
  by_cases hf : flags = 0
  · rw [if_pos hf]
    exact removeFd_inv fd s hs
  · rw [if_neg hf]
    obtain ⟨h1, h2, hr, hw⟩ := hs
    unfold Descriptors.Inv
    dsimp only
    refine ⟨?_, ?_, ?_, ?_⟩
    · intro _
      by_cases hgt : fd > s.highest
      · rw [if_pos hgt]
        refine ⟨Finset.mem_insert_self _ _, ?_⟩
        intro x hx
        rcases Finset.mem_insert.mp hx with rfl | hx
        · exact le_refl _
        · exact le_trans ((h1 ⟨x, hx⟩).2 x hx) (Nat.le_of_lt hgt)
      · rw [if_neg hgt]
        have hle : fd ≤ s.highest := Nat.le_of_not_lt hgt
        have hmem : s.highest ∈ insert fd s.allSet := by
          rcases Finset.eq_empty_or_nonempty s.allSet with hall | hall
          · have h0 := h2 hall
            have hfd0 : fd = s.highest := le_antisymm (h0 ▸ hle) (h0 ▸ Nat.zero_le fd)
            rw [← hfd0]
            exact Finset.mem_insert_self _ _
          · exact Finset.mem_insert_of_mem (h1 hall).1
        refine ⟨hmem, ?_⟩
        intro x hx
        rcases Finset.mem_insert.mp hx with rfl | hx
        · exact hle
        · exact (h1 ⟨x, hx⟩).2 x hx
    · intro he
      exact absurd he (Finset.insert_ne_empty _ _)
    · intro x hx
      by_cases hfl : flags &&& readableFlag ≠ 0
      · rw [if_pos hfl] at hx
        rcases Finset.mem_insert.mp hx with rfl | hx
        · exact Finset.mem_insert_self _ _
        · exact Finset.mem_insert_of_mem (hr hx)
      · rw [if_neg hfl] at hx
        exact Finset.mem_insert_of_mem (hr hx)
    · intro x hx
      by_cases hfl : flags &&& writableFlag ≠ 0
      · rw [if_pos hfl] at hx
        rcases Finset.mem_insert.mp hx with rfl | hx
        · exact Finset.mem_insert_self _ _
        · exact Finset.mem_insert_of_mem (hw hx)
      · rw [if_neg hfl] at hx
        exact Finset.mem_insert_of_mem (hw hx)

/-- Descriptors::add(const Descriptors &) — merging — preserves the
invariant, provided the merged-in set satisfies it too. -/
theorem merge_inv (s t : Descriptors) (hs : s.Inv) (ht : t.Inv) :
    (s.merge t).Inv := by
  obtain ⟨hs1, hs2, hsr, hsw⟩ := hs
  obtain ⟨ht1, ht2, htr, htw⟩ := ht
  unfold Descriptors.merge
  unfold Descriptors.Inv
  dsimp only
  refine ⟨?_, ?_, Finset.union_subset_union hsr htr, Finset.union_subset_union hsw htw⟩
  · intro hne
    rcases Finset.eq_empty_or_nonempty s.allSet with hse | hsne <;>
      rcases Finset.eq_empty_or_nonempty t.allSet with hte | htne
    · exfalso
      obtain ⟨y, hy⟩ := hne
      rw [hse, hte] at hy
      simp at hy
    · rw [hs2 hse, Nat.zero_max]
      obtain ⟨hm, hb⟩ := ht1 htne
      refine ⟨Finset.mem_union_right _ hm, ?_⟩
      intro x hx
      rcases Finset.mem_union.mp hx with hx | hx
      · rw [hse] at hx
        exact absurd hx (Finset.not_mem_empty x)
      · exact hb x hx
    · rw [ht2 hte, Nat.max_zero]
      obtain ⟨hm, hb⟩ := hs1 hsne
      refine ⟨Finset.mem_union_left _ hm, ?_⟩
      intro x hx
      rcases Finset.mem_union.mp hx with hx | hx
      · exact hb x hx
      · rw [hte] at hx
        exact absurd hx (Finset.not_mem_empty x)
    · obtain ⟨hsm, hsb⟩ := hs1 hsne
      obtain ⟨htm, htb⟩ := ht1 htne
      rcases le_total s.highest t.highest with hle | hle
      · rw [max_eq_right hle]
        refine ⟨Finset.mem_union_right _ htm, ?_⟩
        intro x hx
        rcases Finset.mem_union.mp hx with hx | hx
        · exact le_trans (hsb x hx) hle
        · exact htb x hx
      · rw [max_eq_left hle]
        refine ⟨Finset.mem_union_left _ hsm, ?_⟩
        intro x hx
        rcases Finset.mem_union.mp hx with hx | hx
        · exact hsb x hx
        · exact le_trans (htb x hx) hle
  · intro he
    rw [Finset.union_eq_empty] at he
    rw [hs2 he.1, ht2 he.2]
    rfl

/-- Running a trace of operations from the fresh set, with every
merged-in operand satisfying the invariant, lands in an invariant
state (the fold form of the preservation lemmas). -/
theorem runDOps_inv_aux : ∀ (ops : List DOp) (s : Descriptors),
    s.Inv → DOpsOK ops → (ops.foldl applyDOp s).Inv := by
  intro ops
  induction ops with
  | nil =>
    intro s hs _
    simpa using hs
  | cons op rest ih =>
    intro s hs hok
    have hop : (applyDOp s op).Inv := by
      cases op with
      | add fd flags => exact addFd_inv fd flags s hs
      | rem fd => exact removeFd_inv fd s hs
      | mergeWith t => exact merge_inv s t hs (hok (DOp.mergeWith t) (List.mem_cons_self _ _))
    exact ih (applyDOp s op) hop (fun o ho => hok o (List.mem_cons_of_mem _ ho))

/-- C9: after any sequence of add (flags 0 removing), remove and merge
operations, the descriptor set satisfies: the tracked maximum is the
largest member of the all-set when non-empty and zero when empty, and
the readable and writable subsets are contained in the all-set. -/
theorem descriptors_invariant_all_traces (ops : List DOp) (hok : DOpsOK ops) :
    (runDOps ops).Inv :=
  runDOps_inv_aux ops {} inv_empty_descriptors hok

/-- Witness for C9 at a concrete trace of seven operations. -/
theorem descriptors_invariant_all_traces_witness :
    DOpsOK dOpsW ∧ (runDOps dOpsW).Inv := by
  have hok : DOpsOK dOpsW := by
    intro op hop
    fin_cases hop
    · trivial
    · trivial
    · trivial
    · trivial
    · trivial
    · exact ⟨fun _ => ⟨by decide, by decide⟩, fun h => absurd h (by decide),
        by decide, by decide⟩
    · trivial
  exact ⟨hok, descriptors_invariant_all_traces dOpsW hok⟩

/-! ## C8 -/

/-- When extract finds nothing, no job of the pool is ready. -/
theorem extract_none_all_not_ready : ∀ (jobs : List PoolJob),
    extract jobs = none → ∀ j ∈ jobs, j.ready = false := by
  intro jobs
  induction jobs with
  | nil =>
    intro _ j hj
    exact absurd hj (List.not_mem_nil j)
  | cons a tl ih =>
    intro h j hj
    unfold extract at h
    by_cases ha : a.ready = true
    · rw [if_pos ha] at h
      exact Option.noConfusion h
    · rw [if_neg ha] at h
      have htl : extract tl = none := by
        rcases he : extract tl with _ | p
        · rfl
        · rw [he, Option.map_some'] at h
          exact Option.noConfusion h
      rcases List.mem_cons.mp hj with rfl | hj
      · simpa using ha
      · exact ih htl j hj

/-- When extract returns a job, that job was ready, the pool shrank by
one, the ids are preserved up to moving the extracted id to the front,
and the remainder is drawn from the pool. -/
theorem extract_some_spec : ∀ (jobs rest : List PoolJob) (j : PoolJob),
    extract jobs = some (j, rest) →
    j.ready = true ∧ jobs.length = rest.length + 1 ∧
    (jobs.map PoolJob.id).Perm (j.id :: rest.map PoolJob.id) ∧
    ∀ x ∈ rest, x ∈ jobs := by
  intro jobs
  induction jobs with
  | nil =>
    intro rest j h
    simp [extract] at h
  | cons a tl ih =>
    intro rest j h
    unfold extract at h
    by_cases ha : a.ready = true
    · rw [if_pos ha] at h
      simp only [Option.some.injEq, Prod.mk.injEq] at h
      obtain ⟨rfl, rfl⟩ := h
      exact ⟨ha, rfl, List.Perm.refl _, fun x hx => List.mem_cons_of_mem _ hx⟩
    · rw [if_neg ha] at h
      rcases he : extract tl with _ | p
      · rw [he] at h
        exact Option.noConfusion h
      · obtain ⟨p1, p2⟩ := p
        rw [he, Option.map_some'] at h
        simp only [Option.some.injEq, Prod.mk.injEq] at h
        obtain ⟨rfl, rfl⟩ := h
        obtain ⟨hready, hlen, hperm, hmem⟩ := ih p2 p1 he
        refine ⟨hready, by simp [hlen], ?_, ?_⟩
        · have h1 : ((a :: tl).map PoolJob.id).Perm (a.id :: p1.id :: p2.map PoolJob.id) := by
            simpa using List.Perm.cons a.id hperm
          have h2 : (a.id :: p1.id :: p2.map PoolJob.id).Perm
              (p1.id :: a.id :: p2.map PoolJob.id) := List.Perm.swap p1.id a.id _
          have h3 := h1.trans h2
          simpa using h3
        · intro x hx
          rcases List.mem_cons.mp hx with rfl | hx
          · exact List.mem_cons_self _ _
          · exact List.mem_cons_of_mem _ (hmem x hx)

/-- Delivering a result changes no job id. -/
theorem deliver_map_id (e : Nat) : ∀ (jobs : List PoolJob),
    (deliver e jobs).map PoolJob.id = jobs.map PoolJob.id := by
  intro jobs
  induction jobs with
  | nil => rfl
  | cons a tl ih =>
    unfold deliver at ih ⊢
    simp only [List.map_cons, List.map_map] at ih ⊢
    rw [ih]
    by_cases h : a.id = e <;> simp [h]

/-- Delivering a result preserves the pool size. -/
theorem deliver_length (e : Nat) (jobs : List PoolJob) :
    (deliver e jobs).length = jobs.length := by
  unfold deliver
  exact List.length_map _ _

/-- Consuming the front event keeps the coverage assumption. -/
theorem deliver_covered (e : Nat) (es : List Nat) (jobs : List PoolJob)
    (hc : Covered jobs (e :: es)) : Covered (deliver e jobs) es := by
  intro j2 hj2
  unfold deliver at hj2
  rcases List.mem_map.mp hj2 with ⟨j, hj, rfl⟩
  by_cases hid : j.id = e
  · left
    simp [hid]
  · simp only [hid, if_false]
    rcases hc j hj with hr | hin
    · exact Or.inl hr
    · rcases List.mem_cons.mp hin with h0 | hin
      · exact absurd h0 hid
      · exact Or.inr hin

/-- The core loop of Pool::wait makes progress: with a non-empty job
map whose jobs are all eventually served, it returns one ready job,
shrinks the map by exactly one, preserves the ids and keeps the
coverage assumption for the remainder. -/
theorem waitGo_progress : ∀ (evs : List Nat) (jobs : List PoolJob),
    jobs ≠ [] → Covered jobs evs →
    ∃ jid rest evs2, waitGo evs jobs = some (some jid, rest, evs2) ∧
      jobs.length = rest.length + 1 ∧
      (jobs.map PoolJob.id).Perm (jid :: rest.map PoolJob.id) ∧
      Covered rest evs2 := by
  intro evs
  induction evs with
  | nil =>
    intro jobs hne hc
    have hie : jobs.isEmpty = false := by
      cases jobs with
      | nil => exact absurd rfl hne
      | cons a tl => rfl
    rcases he : extract jobs with _ | p
    · obtain ⟨a, ha⟩ := List.exists_mem_of_ne_nil jobs hne
      rcases hc a ha with hr | hin
      · rw [extract_none_all_not_ready jobs he a ha] at hr
        exact Bool.noConfusion hr
      · exact absurd hin (List.not_mem_nil _)
    · obtain ⟨j, rest⟩ := p
      obtain ⟨_, hlen, hperm, hmem⟩ := extract_some_spec jobs rest j he
      refine ⟨j.id, rest, [], ?_, hlen, hperm, ?_⟩
      · unfold waitGo
        rw [hie, he]
        rfl
      · intro x hx
        rcases hc x (hmem x hx) with hr | hin
        · exact Or.inl hr
        · exact absurd hin (List.not_mem_nil _)
  | cons e es ih =>
    intro jobs hne hc
    have hie : jobs.isEmpty = false := by
      cases jobs with
      | nil => exact absurd rfl hne
      | cons a tl => rfl
    rcases he : extract jobs with _ | p
    · have hne2 : deliver e jobs ≠ [] := by
        intro h0
        apply hne
        have := congrArg List.length h0
        rw [deliver_length] at this
        exact List.length_eq_zero.mp this
      obtain ⟨jid, rest, evs2, hgo, hlen, hperm, hcov⟩ :=
        ih (deliver e jobs) hne2 (deliver_covered e es jobs hc)
      refine ⟨jid, rest, evs2, ?_, ?_, ?_, hcov⟩
      · unfold waitGo
        rw [hie, he]
        exact hgo
      · rw [deliver_length] at hlen
        exact hlen
      · rw [deliver_map_id] at hperm
        exact hperm
    · obtain ⟨j, rest⟩ := p
      obtain ⟨_, hlen, hperm, hmem⟩ := extract_some_spec jobs rest j he
      refine ⟨j.id, rest, e :: es, ?_, hlen, hperm, ?_⟩
      · unfold waitGo
        rw [hie, he]
        rfl
      · intro x hx
        exact hc x (hmem x hx)

/-- One Pool::wait call on a non-empty pool with live handlers returns a
job and shrinks the pool by one. -/
theorem poolWait_progress (jobs : List PoolJob) (evs : List Nat)
    (hne : jobs ≠ []) (hc : Covered jobs evs) :
    ∃ jid rest evs2,
      poolWait { jobs := jobs, handlers := true } evs =
        some (some jid, { jobs := rest, handlers := true }, evs2) ∧
      jobs.length = rest.length + 1 ∧
      (jobs.map PoolJob.id).Perm (jid :: rest.map PoolJob.id) ∧
      Covered rest evs2 := by
  obtain ⟨jid, rest, evs2, hgo, hlen, hperm, hcov⟩ := waitGo_progress evs jobs hne hc
  refine ⟨jid, rest, evs2, ?_, hlen, hperm, hcov⟩
  unfold poolWait
  dsimp only
  rw [hgo]
  rfl

/-- Running one more Pool::wait call than there are jobs: every call but
the last returns one job, the size decreases by one each call down to
zero, the returned ids are exactly the pool's ids, and the final call
returns null. -/
theorem runWaitCalls_spec : ∀ (n : Nat) (jobs : List PoolJob) (evs : List Nat),
    jobs.length = n → Covered jobs evs →
    ∃ (log : List (Option Nat × Nat)) (ids : List Nat),
      runWaitCalls (n + 1) { jobs := jobs, handlers := true } evs = some log ∧
      log.map Prod.snd = (List.range n).reverse ++ [0] ∧
      log.map Prod.fst = ids.map some ++ [none] ∧
      ids.Perm (jobs.map PoolJob.id) := by
  intro n
  induction n with
  | zero =>
    intro jobs evs hlen hc
    have hj : jobs = [] := List.length_eq_zero.mp hlen
    subst hj
    have h0 : runWaitCalls 1 { jobs := ([] : List PoolJob), handlers := true } evs =
        some [(none, 0)] := by
      cases evs <;> rfl
    exact ⟨[(none, 0)], [], h0, rfl, rfl, List.Perm.refl _⟩
  | succ n ih =>
    intro jobs evs hlen hc
    have hne : jobs ≠ [] := by
      intro h0
      rw [h0] at hlen
      simp at hlen
    obtain ⟨jid, rest, evs2, hpw, hlen2, hperm, hcov⟩ := poolWait_progress jobs evs hne hc
    have hrn : rest.length = n := by omega
    obtain ⟨log2, ids2, hrun2, hsz2, hfst2, hperm2⟩ := ih rest evs2 hrn hcov
    refine ⟨(some jid, rest.length) :: log2, jid :: ids2, ?_, ?_, ?_, ?_⟩
    · unfold runWaitCalls
      rw [hpw]
      dsimp only
      rw [hrun2]
      rfl
    · simp only [List.map_cons, hsz2, hrn, List.range_succ, List.reverse_append,
        List.reverse_singleton, List.singleton_append, List.cons_append,
        List.nil_append]
    · simp [hfst2]
    · exact (List.Perm.cons jid hperm2).trans hperm.symm

/-- C8: for a pool of N started jobs that all eventually receive
results, the first N calls to Pool::wait each return one finished job,
the size after the i-th call is N - i, the returned jobs are exactly the
pool's N jobs, and the (N+1)-th call returns null. -/
theorem pool_wait_drains (jobs : List PoolJob) (evs : List Nat)
    (hc : Covered jobs evs) :
    ∃ (log : List (Option Nat × Nat)) (ids : List Nat),
      runWaitCalls (jobs.length + 1) { jobs := jobs, handlers := true } evs = some log ∧
      log.map Prod.snd = (List.range jobs.length).reverse ++ [0] ∧
      log.map Prod.fst = ids.map some ++ [none] ∧
      ids.Perm (jobs.map PoolJob.id) :=
  runWaitCalls_spec jobs.length jobs evs rfl hc

/-- Witness for C8 at a two-job pool whose replies arrive out of
insertion order. -/
theorem pool_wait_drains_witness :
    Covered poolJobsW poolEvsW ∧
    ∃ (log : List (Option Nat × Nat)) (ids : List Nat),
      runWaitCalls (poolJobsW.length + 1) { jobs := poolJobsW, handlers := true } poolEvsW = some log ∧
      log.map Prod.snd = (List.range poolJobsW.length).reverse ++ [0] ∧
      log.map Prod.fst = ids.map some ++ [none] ∧
      ids.Perm (poolJobsW.map PoolJob.id) :=
  ⟨by unfold Covered; decide,
   pool_wait_drains poolJobsW poolEvsW (by unfold Covered; decide)⟩

end Yoth
